import Mathlib

set_option maxRecDepth 80000

/-!
Verification of the discord-voicebot audio capture / conversation pipeline.

Shallow embedding of:
- src/voicebot/discord_vc_sinks/audio_sinks.py  (timeout-policy per speaker buffering)
- src/voicebot/discord_vc_tools/audio_api.py    (energy-policy per speaker buffering)
- src/voicebot/voice_assistant/assistant.py     (conversation state, turn gate,
  end-of-turn check, segmented synthesis)
- src/voicebot/voice_assistant/agent.py         (graph variant of the same logic)

Modelling conventions:
- Python strings are lists of characters (List Char).
- Raw 16-bit PCM byte strings are modelled at sample granularity as List Int;
  one sample is two bytes, so a byte-length guard such as len(b) <= 3840 becomes
  2 * b.length <= 3840.
- One audio frame is the flat row-major sample block of one packet:
  NUM_SAMPLES * NUM_CHANNELS samples.  The decoder constants NUM_SAMPLES and
  NUM_CHANNELS come from the external Opus decoder, so the models are
  parametrised by the per-frame sample count fl > 0.
- numpy buffers of shape (NUM_SAMPLES * frameCount, NUM_CHANNELS) are modelled
  at frame granularity: a list of frameCount frames.  All slicing done by the
  source is frame aligned, so this abstraction is exact; tobytes() becomes
  List.flatten.
- Stateful code becomes explicit state passing; callbacks such as the flush
  callback are modelled by appending the call arguments to an output log.
-/

/-! ## Python string primitives -/

/-- Whitespace characters recognised by Python str.split / str.rsplit
(ASCII fragment; the transcripts and responses handled here are plain text). -/
def pySpace (c : Char) : Bool :=
  c = ' ' || c = '\t' || c = '\n' || c = '\r' || c = '\x0b' || c = '\x0c'

/-- Accumulator worker for `pySplit`.  The accumulator holds the current token
reversed. -/
def pySplitAux : List Char → List Char → List (List Char)
  | [], acc => if acc.isEmpty then [] else [acc.reverse]
  | c :: cs, acc =>
    if pySpace c then
      if acc.isEmpty then pySplitAux cs []
      else acc.reverse :: pySplitAux cs []
    else pySplitAux cs (c :: acc)

/-- Python `s.split()`: split on runs of whitespace, discarding empty pieces. -/
def pySplit (s : List Char) : List (List Char) := pySplitAux s []

/-- Python `s.rsplit(None, 1)`: split off the last whitespace-delimited token.
Returns `[]` for an empty or whitespace-only string, `[tok]` when the string
holds a single token, and `[head, tok]` otherwise, where `head` keeps any
leading whitespace but loses the separator run and trailing whitespace. -/
def pyRsplit1 (s : List Char) : List (List Char) :=
  let r2 := s.reverse.dropWhile pySpace
  if r2.isEmpty then []
  else
    let tokR := r2.takeWhile (fun c => !pySpace c)
    let restR := (r2.dropWhile (fun c => !pySpace c)).dropWhile pySpace
    if restR.isEmpty then [tokR.reverse] else [restR.reverse, tokR.reverse]

/-- Python `s.strip()`. -/
def pyStrip (s : List Char) : List Char :=
  ((s.dropWhile pySpace).reverse.dropWhile pySpace).reverse

/-- Python `s.lower()` (ASCII fragment, enough for the activation words). -/
def pyLower (s : List Char) : List Char := s.map Char.toLower

/-- Whether `sub` is a prefix of `hay` (helper for substring search). -/
def pyStartsWith : List Char → List Char → Bool
  | [], _ => true
  | _ :: _, [] => false
  | a :: as, b :: bs => a == b && pyStartsWith as bs

/-- Python `sub in hay`: contiguous substring occurrence. -/
def pyContainsSub (sub : List Char) : List Char → Bool
  | [] => sub.isEmpty
  | c :: t => pyStartsWith sub (c :: t) || pyContainsSub sub t

/-! ## Conversation state and turn gate
(src/voicebot/voice_assistant/assistant.py; agent.py holds the same
`global_state` dict and the same `_get_context` / `_check_chat_status` /
activation logic.) -/

namespace Assistant

/-- Chat roles used in the history entries. -/
inductive Role where
  | system
  | user
  | assistant
deriving DecidableEq, Repr

/-- One `{"role": ..., "content": ...}` history entry. -/
structure Message where
  role : Role
  content : List Char
deriving DecidableEq, Repr

/-- The shared `state` dict of `VoiceAssistant.__init__`.  The concrete Polish
prompt text carries no structure the code inspects, so the prompt is kept as an
ordinary field set at construction. -/
structure ConvState where
  system_prompt : List Char
  activate_words : List (List Char)
  chat_history : List Message
  message_call : Option (Nat × List Char)
  caller_id : Option Nat
deriving DecidableEq, Repr

/-- The activation word list `["alvin", "alwin"]`. -/
def default_activate_words : List (List Char) := ["alvin".toList, "alwin".toList]

/-- Initial conversation state (empty history, no caller, no pending call),
parametrised by the configured system prompt text. -/
def init_conv_state (sp : List Char) : ConvState :=
  { system_prompt := sp
    activate_words := default_activate_words
    chat_history := []
    message_call := none
    caller_id := none }

/-- `LanguageModel._get_context`: append a user message, seeding the history
with the system prompt when it is empty. -/
def get_context (st : ConvState) (message : List Char) : ConvState :=
  if st.chat_history.isEmpty then
    { st with chat_history :=
        [⟨Role.system, st.system_prompt⟩, ⟨Role.user, message⟩] }
  else
    { st with chat_history := st.chat_history ++ [⟨Role.user, message⟩] }

/-- `LanguageModel._check_chat_status`.  `response.split()[-1]` raises
IndexError when the response has no tokens, modelled as `Except.error ()`;
no state is mutated in that case because the indexing happens first.
On the sentinel branch the spoken text is `response.rsplit(None, 1)[0]`. -/
def check_chat_status (response : List Char) (st : ConvState) :
    Except Unit (List Char × ConvState) :=
  match (pySplit response).getLast? with
  | none => Except.error ()
  | some tok =>
    if tok = "True".toList then
      match pyRsplit1 response with
      | spoken :: _ =>
        Except.ok (spoken, { st with caller_id := none, chat_history := [] })
      | [] => Except.error ()
    else Except.ok (response, st)

/-- `SpeechToText._handle_caller_id`: the turn gate evaluated on one
transcript `(speaker, message)`. -/
def handle_caller_id (st : ConvState) (speaker : Nat) (message : List Char) :
    ConvState :=
  match st.caller_id with
  | some c =>
    if c = speaker then { st with message_call := some (speaker, message) }
    else st
  | none =>
    if st.activate_words.any
        (fun w => pyContainsSub (pyLower w) (pyLower message)) then
      { st with caller_id := some speaker, message_call := some (speaker, message) }
    else st

/-- One iteration of `_message_sending_loop` on a pending message call: if the
message is non-empty, add the user message (`_get_context`), append the
assistant response returned by the external language model, run the
end-of-turn check, and clear the pending call.  The three history mutations of
the loop happen in exactly this order in the source.  A `_check_chat_status`
that raises (empty token list) mutates nothing — the exception fires before
its assignments. -/
def message_iteration (st : ConvState) (message response : List Char) :
    ConvState :=
  if message.isEmpty then { st with message_call := none }
  else
    let st1 := get_context st message
    let st2 := { st1 with chat_history := st1.chat_history ++ [⟨Role.assistant, response⟩] }
    let st3 :=
      match check_chat_status response st2 with
      | Except.ok (_, s) => s
      | Except.error _ => st2
    { st3 with message_call := none }

/-- Run the response loop from the initial state over a sequence of
(message, model response) pairs. -/
def run_loop (sp : List Char) (calls : List (List Char × List Char)) : ConvState :=
  calls.foldl (fun st c => message_iteration st c.1 c.2) (init_conv_state sp)

/-! ### Segmented synthesis
`TextToSpeech._process_response` (assistant.py) and
`VoiceAssistant.synthesize_audio` (agent.py). -/

/-- Sentence-terminating characters of the segmentation regex
`[^.!?]+[.!?]?`. -/
def isTermCh (c : Char) : Bool := c = '.' || c = '!' || c = '?'

/-- Accumulator worker modelling `re.findall(r"[^.!?]+[.!?]?", s)`: maximal
runs of non-terminators, each keeping one following terminator when present;
terminator characters that cannot start a match are skipped. -/
def findSegsAux : List Char → List Char → List (List Char)
  | [], acc => if acc.isEmpty then [] else [acc.reverse]
  | c :: cs, acc =>
    if isTermCh c then
      if acc.isEmpty then findSegsAux cs []
      else (acc.reverse ++ [c]) :: findSegsAux cs []
    else findSegsAux cs (c :: acc)

/-- `segments = [seg.strip() for seg in re.findall(...) if seg.strip()]`. -/
def segsOf (response : List Char) : List (List Char) :=
  (((findSegsAux response []).map pyStrip).filter (fun s => !s.isEmpty))

/-- The chunk grouping of `_process_response` with the default
`chunk_size = 2`: `" ".join(segments[i : i + 2])` for `i = 0, 2, 4, ...`. -/
def chunk_pairs : List (List Char) → List (List Char)
  | [] => []
  | [a] => [a]
  | a :: b :: rest => (a ++ [' '] ++ b) :: chunk_pairs rest

/-- Queue puts of the pipelined loop in `_process_response`: the loop awaits
the previous chunk task and enqueues its audio, then starts the current chunk;
the final pending task is awaited and enqueued after the loop.  (The loop also
fires lookahead synthesis tasks whose results are discarded; they never reach
the queue and are not modelled.)  The first argument is the pending task, as
the synthesized audio it will yield. -/
def process_loop {α : Type} (tts : List Char → α) :
    Option α → List (List Char) → List α
  | none, [] => []
  | some r, [] => [r]
  | none, c :: cs => process_loop tts (some (tts c)) cs
  | some r, c :: cs => r :: process_loop tts (some (tts c)) cs

/-- Playback-queue items produced by `TextToSpeech._process_response` for one
response.  Queue items are `Option α`: `some audio` is a playback unit and
`none` is the terminal marker value used by the playback stage. -/
def process_response {α : Type} (tts : List Char → α) (response : List Char) :
    List (Option α) :=
  if response.isEmpty then []
  else (process_loop tts none (chunk_pairs (segsOf response))).map some

/-- Playback-queue items produced by `VoiceAssistant.synthesize_audio`
(agent.py): the first segment is synthesized and enqueued (then
`playback_ready` is set — a concurrency signal outside this model), the
remaining segments follow in order, and `None` is enqueued at the end. -/
def synthesize_audio {α : Type} (tts : List Char → α) (response : List Char) :
    List (Option α) :=
  (match segsOf response with
   | [] => []
   | s0 :: rest => some (tts s0) :: rest.map (fun seg => some (tts seg))) ++ [none]

end Assistant

/-! ## Timeout-policy sink
(src/voicebot/discord_vc_sinks/audio_sinks.py: `AudioBuffer`,
`BufferAudioSink`). -/

namespace AudioSinks

/-- `AudioBuffer`: 800-frame pre-allocated buffer, at frame granularity
(`fl` = samples per frame times channels). -/
structure AudioBuffer where
  buffer : List (List Int)
  buffer_pointer : Nat
deriving DecidableEq, Repr

/-- Freshly constructed `AudioBuffer()`: zeroed 800-frame array, pointer 0. -/
def init_buffer (fl : Nat) : AudioBuffer :=
  { buffer := List.replicate 800 (List.replicate fl 0), buffer_pointer := 0 }

/-- `AudioBuffer.fill_buffer`: write one frame at the pointer, advance it. -/
def fill_buffer (cb : AudioBuffer) (frame : List Int) : AudioBuffer :=
  { buffer := cb.buffer.set cb.buffer_pointer frame
    buffer_pointer := cb.buffer_pointer + 1 }

/-- `AudioBuffer.clear_buffer`: zero the array, reset the pointer. -/
def clear_buffer (fl : Nat) (cb : AudioBuffer) : AudioBuffer :=
  { buffer := cb.buffer.map (fun _ => List.replicate fl 0), buffer_pointer := 0 }

/-- State of one `BufferAudioSink`: the lazily created buffer, the log of
`flush(speaker, pcm_bytes)` callback invocations in order, and a ghost counter
of hard-cap flushes (observational instrumentation only). -/
structure SinkState where
  buffer : Option AudioBuffer
  flushed : List (Nat × List Int)
  hardcap_flushes : Nat
deriving DecidableEq, Repr

/-- `self.buffer` after `_get_speaker_buffer` (lazy creation). -/
def bufOf (fl : Nat) (st : SinkState) : AudioBuffer :=
  st.buffer.getD (init_buffer fl)

/-- `BufferAudioSink._process_data`: cancel the timer (timing is modelled by
explicit timeout events), decode the frame (`np.frombuffer(...).reshape`
succeeds exactly when the sample count matches one frame; on failure the
packet is dropped and logged), hard-cap flush the whole 800-frame array when
the pointer exceeds `BUFFER_FRAME_COUNT - 2 = 298`, then append the frame. -/
def process_data (fl : Nat) (st : SinkState) (speaker : Nat) (pcm : List Int) :
    SinkState :=
  if pcm.length = fl then
    let cb := bufOf fl st
    if cb.buffer_pointer > 300 - 2 then
      { buffer := some (fill_buffer (clear_buffer fl cb) pcm)
        flushed := st.flushed ++ [(speaker, cb.buffer.flatten)]
        hardcap_flushes := st.hardcap_flushes + 1 }
    else
      { st with buffer := some (fill_buffer cb pcm) }
  else st

/-- `BufferAudioSink._timeout_flush`: if the buffer is non-empty, flush
exactly the filled region `buffer[: pointer * NUM_SAMPLES]` and clear. -/
def timeout_flush (fl : Nat) (st : SinkState) (speaker : Nat) : SinkState :=
  let cb := bufOf fl st
  if 0 < cb.buffer_pointer then
    { st with
      buffer := some (clear_buffer fl cb)
      flushed := st.flushed ++ [(speaker, (cb.buffer.take cb.buffer_pointer).flatten)] }
  else { st with buffer := some cb }

/-- `BufferAudioSink.write`: oversized packets (`len(voice_data) > 3840`
bytes, i.e. silence/control packets) are ignored without decoding. -/
def write (fl : Nat) (st : SinkState) (speaker : Nat) (voice_data : List Int) :
    SinkState :=
  if 2 * voice_data.length ≤ 3840 then process_data fl st speaker voice_data
  else st

/-- External events driving one sink: a packet delivery, or the inactivity
timer firing.  The model places no constraint on when timers fire, which
covers every real interleaving. -/
inductive SinkEvent where
  | packet (speaker : Nat) (pcm : List Int)
  | timeout (speaker : Nat)
deriving DecidableEq, Repr

/-- One event step of the sink. -/
def sink_step (fl : Nat) (st : SinkState) : SinkEvent → SinkState
  | SinkEvent.packet sp d => write fl st sp d
  | SinkEvent.timeout sp => timeout_flush fl st sp

/-- Run the sink from its freshly constructed state over an event sequence. -/
def sink_run (fl : Nat) (es : List SinkEvent) : SinkState :=
  es.foldl (sink_step fl) { buffer := none, flushed := [], hardcap_flushes := 0 }

/-- The frames the sink accepts from an event sequence: packets that pass the
oversize gate and decode to exactly one frame.  Oversized and malformed
packets are discarded. -/
def accepted (fl : Nat) (es : List SinkEvent) : List (List Int) :=
  es.filterMap fun e =>
    match e with
    | SinkEvent.packet _ d =>
      if 2 * d.length ≤ 3840 then (if d.length = fl then some d else none)
      else none
    | SinkEvent.timeout _ => none

end AudioSinks

/-! ## Energy-policy sink
(src/voicebot/discord_vc_tools/audio_api.py: `AudioBuffer`,
`BufferAudioSink`). -/

namespace AudioApi

/-- `AudioBuffer` of audio_api.py: 600-frame pre-allocated buffer. -/
structure AudioBuffer where
  buffer : List (List Int)
  buffer_pointer : Nat
deriving DecidableEq, Repr

/-- Freshly constructed buffer for one speaker. -/
def init_buffer (fl : Nat) : AudioBuffer :=
  { buffer := List.replicate 600 (List.replicate fl 0), buffer_pointer := 0 }

/-- `fill_buffer`: write one frame at the pointer, advance it. -/
def fill_buffer (cb : AudioBuffer) (frame : List Int) : AudioBuffer :=
  { buffer := cb.buffer.set cb.buffer_pointer frame
    buffer_pointer := cb.buffer_pointer + 1 }

/-- `clear_buffer`: zero the array, reset the pointer. -/
def clear_buffer (fl : Nat) (cb : AudioBuffer) : AudioBuffer :=
  { buffer := cb.buffer.map (fun _ => List.replicate fl 0), buffer_pointer := 0 }

/-- Association list lookup modelling `self.buffers.get(speaker)`. -/
def alookup {α : Type} : List (Nat × α) → Nat → Option α
  | [], _ => none
  | (k, v) :: t, k2 => if k = k2 then some v else alookup t k2

/-- Association list store modelling `self.buffers[speaker] = ...`. -/
def aset {α : Type} : List (Nat × α) → Nat → α → List (Nat × α)
  | [], k, v => [(k, v)]
  | (k1, v1) :: t, k, v =>
    if k1 = k then (k, v) :: t else (k1, v1) :: aset t k v

/-- State of the energy-policy `BufferAudioSink`: per-speaker buffers, the
caller lock, and the log of `flush(speaker, payload)` invocations where the
payload `none` models the Python value `None`. -/
structure Sink where
  buffers : List (Nat × AudioBuffer)
  caller_id : Option Nat
  flushed : List (Nat × Option (List Int))
deriving DecidableEq, Repr

/-- Freshly constructed sink: no buffers, no caller lock, nothing flushed. -/
def init_sink : Sink := { buffers := [], caller_id := none, flushed := [] }

/-- The buffer `write` operates on for a speaker (created on first use). -/
def bufOf (fl : Nat) (st : Sink) (user : Nat) : AudioBuffer :=
  (alookup st.buffers user).getD (init_buffer fl)

/-- `np.abs` on one int16 sample: the absolute value is wrapped back into the
int16 range, so `abs(-32768)` stays `-32768` while every other in-range value
gets its ordinary absolute value. -/
def np_abs_int16 (x : Int) : Int := (|x| + 32768) % 65536 - 32768

/-- Core of `write` after the caller gate: frame decoding
(`np.ndarray(shape=(NUM_SAMPLES, NUM_CHANNELS), buffer=pcm)` needs at least
one frame of samples; on failure `flush(speaker, None)` is called), the
hard-cap flush (which drops the current frame), and the energy policy with
silence threshold 500.  The energy `np.abs(frame).sum()` takes the int16
per-sample wrapped absolute value (`np_abs_int16`) and accumulates in the
default int64, which cannot wrap at one frame of samples, so the sum is
exact over the wrapped values.  Returns the new buffer and the optional
flush emission (`some payload` when the flush callback runs). -/
def process_voice (fl : Nat) (cb : AudioBuffer) (voice_data : List Int) :
    AudioBuffer × Option (Option (List Int)) :=
  if voice_data.length < fl then (cb, some none)
  else
    let frame := voice_data.take fl
    if cb.buffer_pointer > 600 - 2 then
      (clear_buffer fl cb, some (some cb.buffer.flatten))
    else if 500 < (frame.map np_abs_int16).sum then
      (fill_buffer cb frame, none)
    else if 0 < cb.buffer_pointer then
      (clear_buffer fl cb, some (some cb.buffer.flatten))
    else (cb, none)

/-- The accepted-speaker path of `write`: get or create the speaker's buffer,
process the packet, store the buffer back and log any flush call. -/
def write_accept (fl : Nat) (st : Sink) (user : Nat) (voice_data : List Int) :
    Sink :=
  let buffers1 :=
    match alookup st.buffers user with
    | some _ => st.buffers
    | none => aset st.buffers user (init_buffer fl)
  let r := process_voice fl (bufOf fl st user) voice_data
  { st with
    buffers := aset buffers1 user r.1
    flushed := st.flushed ++ (match r.2 with | none => [] | some p => [(user, p)]) }

/-- `BufferAudioSink.write` of audio_api.py: while a caller is locked, packets
from any other speaker short-circuit to `flush(speaker, None)`.  The gate is
the Python truthiness test `if self.caller_id and speaker != self.caller_id`,
which is falsy not only for `None` but also for the id 0, so a stored caller
id 0 does not block other speakers. -/
def write (fl : Nat) (st : Sink) (user : Nat) (voice_data : List Int) : Sink :=
  match st.caller_id with
  | some c =>
    if c ≠ 0 then
      if user ≠ c then { st with flushed := st.flushed ++ [(user, none)] }
      else write_accept fl st user voice_data
    else write_accept fl st user voice_data
  | none => write_accept fl st user voice_data

end AudioApi


/-! ## Lemmas about the Python string primitives -/

theorem pySplitAux_allspace {w : List Char} (hw : ∀ c ∈ w, pySpace c = true) :
    ∀ acc, pySplitAux w acc = if acc.isEmpty then [] else [acc.reverse] := by
  induction w with
  | nil => intro acc; rfl
  | cons c cs ih =>
    intro acc
    have hc : pySpace c = true := hw c (List.mem_cons_self c cs)
    have hcs : ∀ x ∈ cs, pySpace x = true := fun x hx => hw x (List.mem_cons_of_mem c hx)
    by_cases hacc : acc.isEmpty
    · simp only [pySplitAux, hc, if_true, hacc, ih hcs, List.isEmpty_nil]
    · simp only [pySplitAux, hc, if_true, hacc, if_false, ih hcs, List.isEmpty_nil, if_true]

theorem pySplit_allspace {w : List Char} (hw : ∀ c ∈ w, pySpace c = true) :
    pySplit w = [] := by
  simp [pySplit, pySplitAux_allspace hw]

theorem pySplitAux_append_trailspace {w : List Char} (hw : ∀ c ∈ w, pySpace c = true) :
    ∀ (s : List Char) (acc : List Char), pySplitAux (s ++ w) acc = pySplitAux s acc := by
  intro s
  induction s with
  | nil =>
    intro acc
    rw [List.nil_append, pySplitAux_allspace hw acc]
    rfl
  | cons c cs ih =>
    intro acc
    rw [List.cons_append]
    by_cases hc : pySpace c
    · by_cases hacc : acc.isEmpty
      · simp only [pySplitAux, hc, hacc, if_true]
        exact ih []
      · simp only [pySplitAux, hc, hacc, if_true, if_false]
        rw [ih []]
    · simp only [pySplitAux, hc, if_false]
      exact ih (c :: acc)

theorem pySplitAux_token_run {t : List Char} (ht : ∀ c ∈ t, pySpace c = false) :
    ∀ (rest acc : List Char),
      pySplitAux (t ++ rest) acc = pySplitAux rest (t.reverse ++ acc) := by
  induction t with
  | nil => intro rest acc; simp
  | cons c cs ih =>
    intro rest acc
    have hc : pySpace c = false := ht c (List.mem_cons_self c cs)
    have hcs : ∀ x ∈ cs, pySpace x = false := fun x hx => ht x (List.mem_cons_of_mem c hx)
    rw [List.cons_append]
    have hstep : pySplitAux (c :: (cs ++ rest)) acc = pySplitAux (cs ++ rest) (c :: acc) := by
      simp only [pySplitAux, hc, Bool.false_eq_true, if_false]
    rw [hstep, ih hcs rest (c :: acc), List.reverse_cons, List.append_assoc,
      List.singleton_append]

theorem pySplit_single_token {t : List Char} (ht0 : t ≠ [])
    (ht : ∀ c ∈ t, pySpace c = false) : pySplit t = [t] := by
  have h := pySplitAux_token_run ht [] []
  rw [List.append_nil] at h
  rw [pySplit, h]
  have hne : t.reverse.isEmpty = false := by
    rw [List.isEmpty_eq_false]
    simpa using ht0
  simp only [pySplitAux, List.append_nil, hne, Bool.false_eq_true, if_false,
    List.reverse_reverse]

theorem pySplitAux_space_then_token {w t : List Char}
    (hw : ∀ c ∈ w, pySpace c = true) (ht0 : t ≠ [])
    (ht : ∀ c ∈ t, pySpace c = false) :
    pySplitAux (w ++ t) [] = [t] := by
  induction w with
  | nil => simpa using pySplit_single_token ht0 ht
  | cons c cs ih =>
    have hc : pySpace c = true := hw c (List.mem_cons_self c cs)
    have hcs : ∀ x ∈ cs, pySpace x = true := fun x hx => hw x (List.mem_cons_of_mem c hx)
    rw [List.cons_append]
    simp only [pySplitAux, hc, if_true, List.isEmpty_nil]
    exact ih hcs

theorem pySplitAux_mid {w t : List Char}
    (hw : ∀ c ∈ w, pySpace c = true) (hw0 : w ≠ [])
    (ht0 : t ≠ []) (ht : ∀ c ∈ t, pySpace c = false) :
    ∀ (a acc : List Char),
      pySplitAux (a ++ w ++ t) acc = pySplitAux a acc ++ [t] := by
  intro a
  induction a with
  | nil =>
    intro acc
    rw [List.nil_append]
    obtain ⟨d, w2, rfl⟩ := List.exists_cons_of_ne_nil hw0
    have hd : pySpace d = true := hw d (List.mem_cons_self d w2)
    have hw2 : ∀ c ∈ w2, pySpace c = true := fun x hx => hw x (List.mem_cons_of_mem d hx)
    have hrec : pySplitAux (w2 ++ t) [] = [t] := pySplitAux_space_then_token hw2 ht0 ht
    rw [List.cons_append]
    by_cases hacc : acc.isEmpty
    · simp only [pySplitAux, hd, hacc, if_true, hrec]
      rw [List.isEmpty_eq_true] at hacc
      subst hacc
      rfl
    · have hacc2 : acc.isEmpty = false := by
        cases h2 : acc.isEmpty
        · rfl
        · exact absurd h2 hacc
      simp only [pySplitAux, hd, hacc2, if_true, Bool.false_eq_true, if_false, hrec]
      rfl
  | cons c cs ih =>
    intro acc
    rw [List.append_assoc, List.cons_append]
    by_cases hc : pySpace c
    · by_cases hacc : acc.isEmpty
      · simp only [pySplitAux, hc, hacc, if_true]
        rw [← List.append_assoc]
        exact ih []
      · have hacc2 : acc.isEmpty = false := by
          cases h2 : acc.isEmpty
          · rfl
          · exact absurd h2 hacc
        simp only [pySplitAux, hc, hacc2, if_true, Bool.false_eq_true, if_false]
        rw [← List.append_assoc, ih [], List.cons_append]
    · have hc2 : pySpace c = false := by
        cases h2 : pySpace c
        · rfl
        · exact absurd h2 hc
      simp only [pySplitAux, hc2, Bool.false_eq_true, if_false]
      rw [← List.append_assoc]
      exact ih (c :: acc)

theorem pySplitAux_ne_nil_of_acc {acc : List Char} (h : acc ≠ []) :
    ∀ s, pySplitAux s acc ≠ [] := by
  intro s
  induction s generalizing acc with
  | nil =>
    have hacc : acc.isEmpty = false := List.isEmpty_eq_false.mpr h
    simp [pySplitAux, hacc]
  | cons c cs ih =>
    by_cases hc : pySpace c
    · have hacc : acc.isEmpty = false := List.isEmpty_eq_false.mpr h
      simp [pySplitAux, hc, hacc]
    · simp only [pySplitAux, hc, if_false]
      exact ih (by simp)

theorem pySplit_ne_nil_of_nonspace {s : List Char}
    (h : ∃ c ∈ s, pySpace c = false) : pySplit s ≠ [] := by
  rw [pySplit]
  obtain ⟨c0, hc0mem, hc0⟩ := h
  induction s with
  | nil => cases hc0mem
  | cons c cs ih =>
    by_cases hc : pySpace c
    · have hmem : c0 ∈ cs := by
        rcases List.mem_cons.mp hc0mem with h1 | h1
        · subst h1; rw [hc0] at hc; cases hc
        · exact h1
      simp only [pySplitAux, hc, if_true, List.isEmpty_nil]
      exact ih hmem
    · simp only [pySplitAux, hc, if_false]
      exact pySplitAux_ne_nil_of_acc (by simp) cs

theorem allspace_of_dropWhile_rev_nil {s : List Char}
    (h : s.reverse.dropWhile pySpace = []) : ∀ c ∈ s, pySpace c = true := by
  intro c hc
  exact List.dropWhile_eq_nil_iff.mp h c (List.mem_reverse.mpr hc)

theorem dropWhile_rev_ne_nil_of_pySplit_ne_nil {s : List Char}
    (h : pySplit s ≠ []) : s.reverse.dropWhile pySpace ≠ [] := by
  intro hnil
  exact h (pySplit_allspace (allspace_of_dropWhile_rev_nil hnil))


theorem dropWhile_head_false {α : Type} {p : α → Bool} {l : List α} {c : α}
    {t : List α} (h : l.dropWhile p = c :: t) : p c = false := by
  induction l with
  | nil => simp [List.dropWhile] at h
  | cons a l ih =>
    rw [List.dropWhile_cons] at h
    by_cases hp : p a
    · rw [if_pos hp] at h; exact ih h
    · rw [if_neg hp] at h
      injection h with h1 h2
      subst h1
      cases hpa : p a
      · rfl
      · exact absurd hpa hp

/-- Structural description of `pySplit s` in terms of the pieces used by
`pyRsplit1`: the last token `tokR.reverse` and the remaining head part
`restR.reverse`. -/
theorem pySplit_decomp (s r2 tokR rst0 restR : List Char)
    (hr2 : r2 = s.reverse.dropWhile pySpace) (hr2ne : r2 ≠ [])
    (htokR : tokR = r2.takeWhile (fun c => !pySpace c))
    (hrst0 : rst0 = r2.dropWhile (fun c => !pySpace c))
    (hrestR : restR = rst0.dropWhile pySpace) :
    (restR = [] → pySplit s = [tokR.reverse]) ∧
    (restR ≠ [] →
      pySplit s = pySplit restR.reverse ++ [tokR.reverse] ∧
      pySplit restR.reverse ≠ []) := by
  have hwsp : ∀ c ∈ s.reverse.takeWhile pySpace, pySpace c = true :=
    fun c hc => List.mem_takeWhile_imp hc
  have htok_ns : ∀ c ∈ tokR, pySpace c = false := by
    intro c hc
    rw [htokR] at hc
    have := List.mem_takeWhile_imp hc
    simpa using this
  have htok_ne : tokR ≠ [] := by
    obtain ⟨c, t, hct⟩ := List.exists_cons_of_ne_nil hr2ne
    have hhead : pySpace c = false := by
      have hdw : s.reverse.dropWhile pySpace = c :: t := by rw [← hr2]; exact hct
      exact dropWhile_head_false hdw
    rw [htokR, hct, List.takeWhile_cons]
    simp [hhead]
  have hsep : ∀ c ∈ rst0.takeWhile pySpace, pySpace c = true :=
    fun c hc => List.mem_takeWhile_imp hc
  have hrev : s = restR.reverse ++ ((rst0.takeWhile pySpace).reverse ++
      (tokR.reverse ++ (s.reverse.takeWhile pySpace).reverse)) := by
    have h1 : s.reverse.takeWhile pySpace ++ r2 = s.reverse := by
      rw [hr2]; exact List.takeWhile_append_dropWhile pySpace s.reverse
    have h2 : tokR ++ rst0 = r2 := by
      rw [htokR, hrst0]; exact List.takeWhile_append_dropWhile _ r2
    have h3 : rst0.takeWhile pySpace ++ restR = rst0 := by
      rw [hrestR]; exact List.takeWhile_append_dropWhile pySpace rst0
    calc s = s.reverse.reverse := (List.reverse_reverse s).symm
    _ = (s.reverse.takeWhile pySpace ++ (tokR ++ (rst0.takeWhile pySpace ++ restR))).reverse := by
        rw [h3, h2, h1]
    _ = restR.reverse ++ ((rst0.takeWhile pySpace).reverse ++
        (tokR.reverse ++ (s.reverse.takeWhile pySpace).reverse)) := by
        simp [List.reverse_append, List.append_assoc]
  have htokrev_ne : tokR.reverse ≠ [] := by simpa using htok_ne
  have htokrev_ns : ∀ c ∈ tokR.reverse, pySpace c = false :=
    fun c hc => htok_ns c (List.mem_reverse.mp hc)
  have hwsprev : ∀ c ∈ (s.reverse.takeWhile pySpace).reverse, pySpace c = true :=
    fun c hc => hwsp c (List.mem_reverse.mp hc)
  have hseprev : ∀ c ∈ (rst0.takeWhile pySpace).reverse, pySpace c = true :=
    fun c hc => hsep c (List.mem_reverse.mp hc)
  constructor
  · intro hre
    subst hre
    rw [pySplit, hrev]
    simp only [List.reverse_nil, List.nil_append]
    rw [← List.append_assoc]
    rw [pySplitAux_append_trailspace hwsprev _ []]
    exact pySplitAux_space_then_token hseprev htokrev_ne htokrev_ns
  · intro hre
    have hrst0_ne : rst0 ≠ [] := by
      intro hn
      rw [hn] at hrestR
      simp only [List.dropWhile_nil] at hrestR
      exact hre hrestR
    have hsep_ne : (rst0.takeWhile pySpace).reverse ≠ [] := by
      obtain ⟨c, t, hct⟩ := List.exists_cons_of_ne_nil hrst0_ne
      have hqc : (!pySpace c) = false := by
        have hdw : r2.dropWhile (fun c => !pySpace c) = c :: t := by
          rw [← hrst0]; exact hct
        exact dropWhile_head_false (p := fun c => !pySpace c) hdw
      have hhead : pySpace c = true := by simpa using hqc
      rw [hct, List.takeWhile_cons, hhead]
      simp
    have hrest_head_ns : ∃ c ∈ restR.reverse, pySpace c = false := by
      obtain ⟨c, t, hct⟩ := List.exists_cons_of_ne_nil hre
      have hhead : pySpace c = false := by
        have hdw : rst0.dropWhile pySpace = c :: t := by
          rw [← hrestR]; exact hct
        exact dropWhile_head_false hdw
      exact ⟨c, List.mem_reverse.mpr (by rw [hct]; exact List.mem_cons_self c t), hhead⟩
    constructor
    · rw [pySplit, hrev]
      rw [show restR.reverse ++ ((rst0.takeWhile pySpace).reverse ++
          (tokR.reverse ++ (s.reverse.takeWhile pySpace).reverse)) =
          ((restR.reverse ++ (rst0.takeWhile pySpace).reverse) ++ tokR.reverse) ++
            (s.reverse.takeWhile pySpace).reverse by
        simp [List.append_assoc]]
      rw [pySplitAux_append_trailspace hwsprev _ []]
      exact pySplitAux_mid hseprev hsep_ne htokrev_ne htokrev_ns restR.reverse []
    · exact pySplit_ne_nil_of_nonspace hrest_head_ns

/-! ## End-of-turn check: supporting analysis -/

theorem check_chat_status_cases (response : List Char) (st : Assistant.ConvState)
    (h : pySplit response ≠ []) :
    ((pySplit response).getLast? = some "True".toList →
      ∃ spoken, Assistant.check_chat_status response st =
          Except.ok (spoken, { st with caller_id := none, chat_history := [] }) ∧
        (2 ≤ (pySplit response).length →
          pySplit spoken = (pySplit response).dropLast) ∧
        ((pySplit response).length = 1 → spoken = "True".toList)) ∧
    ((pySplit response).getLast? ≠ some "True".toList →
      Assistant.check_chat_status response st = Except.ok (response, st)) := by
  have hr2ne : response.reverse.dropWhile pySpace ≠ [] :=
    dropWhile_rev_ne_nil_of_pySplit_ne_nil h
  have hdec := pySplit_decomp response _ _ _ _ rfl hr2ne rfl rfl rfl
  have hr2e : (response.reverse.dropWhile pySpace).isEmpty = false :=
    List.isEmpty_eq_false.mpr hr2ne
  have hpr : pyRsplit1 response =
      if (((response.reverse.dropWhile pySpace).dropWhile
            (fun c => !pySpace c)).dropWhile pySpace).isEmpty then
        [((response.reverse.dropWhile pySpace).takeWhile (fun c => !pySpace c)).reverse]
      else
        [(((response.reverse.dropWhile pySpace).dropWhile
            (fun c => !pySpace c)).dropWhile pySpace).reverse,
         ((response.reverse.dropWhile pySpace).takeWhile (fun c => !pySpace c)).reverse] := by
    rw [pyRsplit1]
    simp only [hr2e, Bool.false_eq_true, if_false]
  by_cases hrE : ((response.reverse.dropWhile pySpace).dropWhile
      (fun c => !pySpace c)).dropWhile pySpace = []
  · have hsplit := hdec.1 hrE
    have hglast : (pySplit response).getLast? =
        some ((response.reverse.dropWhile pySpace).takeWhile
          (fun c => !pySpace c)).reverse := by
      rw [hsplit]; rfl
    have hprE : pyRsplit1 response =
        [((response.reverse.dropWhile pySpace).takeWhile (fun c => !pySpace c)).reverse] := by
      rw [hpr, hrE]
      simp
    constructor
    · intro hlast
      rw [hglast] at hlast
      have htok : ((response.reverse.dropWhile pySpace).takeWhile
          (fun c => !pySpace c)).reverse = "True".toList := by
        exact Option.some.inj hlast
      refine ⟨"True".toList, ?_, ?_, ?_⟩
      · rw [Assistant.check_chat_status, hglast, htok]
        simp [hprE, htok]
      · intro h2
        rw [hsplit] at h2
        simp at h2
      · intro _
        rfl
    · intro hne
      rw [hglast] at hne
      have htokne : ((response.reverse.dropWhile pySpace).takeWhile
          (fun c => !pySpace c)).reverse ≠ "True".toList := by
        intro he
        exact hne (by rw [he])
      rw [Assistant.check_chat_status, hglast]
      simp only [if_neg htokne]
  · obtain ⟨hsplit, hps_ne⟩ := hdec.2 hrE
    have hglast : (pySplit response).getLast? =
        some ((response.reverse.dropWhile pySpace).takeWhile
          (fun c => !pySpace c)).reverse := by
      rw [hsplit]
      exact List.getLast?_concat _
    have hrEb : (((response.reverse.dropWhile pySpace).dropWhile
        (fun c => !pySpace c)).dropWhile pySpace).isEmpty = false :=
      List.isEmpty_eq_false.mpr hrE
    have hprE : pyRsplit1 response =
        [(((response.reverse.dropWhile pySpace).dropWhile
            (fun c => !pySpace c)).dropWhile pySpace).reverse,
         ((response.reverse.dropWhile pySpace).takeWhile (fun c => !pySpace c)).reverse] := by
      rw [hpr, hrEb]
      simp
    constructor
    · intro hlast
      rw [hglast] at hlast
      have htok : ((response.reverse.dropWhile pySpace).takeWhile
          (fun c => !pySpace c)).reverse = "True".toList := Option.some.inj hlast
      refine ⟨(((response.reverse.dropWhile pySpace).dropWhile
          (fun c => !pySpace c)).dropWhile pySpace).reverse, ?_, ?_, ?_⟩
      · rw [Assistant.check_chat_status, hglast, htok]
        simp [hprE]
      · intro _
        rw [hsplit, List.dropLast_concat]
      · intro h1
        rw [hsplit] at h1
        rw [List.length_append, List.length_cons, List.length_nil] at h1
        have : pySplit (((response.reverse.dropWhile pySpace).dropWhile
            (fun c => !pySpace c)).dropWhile pySpace).reverse = [] := by
          have hlen0 : (pySplit (((response.reverse.dropWhile pySpace).dropWhile
              (fun c => !pySpace c)).dropWhile pySpace).reverse).length = 0 := by omega
          exact List.length_eq_zero.mp hlen0
        exact absurd this hps_ne
    · intro hne
      rw [hglast] at hne
      have htokne : ((response.reverse.dropWhile pySpace).takeWhile
          (fun c => !pySpace c)).reverse ≠ "True".toList := by
        intro he
        exact hne (by rw [he])
      rw [Assistant.check_chat_status, hglast]
      simp only [if_neg htokne]

deriving instance DecidableEq for Except

/-- A concrete mid-conversation state used by concrete evaluations: caller 42
locked, two messages of history. -/
def sample_state : Assistant.ConvState :=
  { system_prompt := "prompt".toList
    activate_words := Assistant.default_activate_words
    chat_history := [⟨Assistant.Role.system, "prompt".toList⟩,
                     ⟨Assistant.Role.user, "Dzieki".toList⟩]
    message_call := none
    caller_id := some 42 }

theorem check_chat_status_state {r : List Char} {st : Assistant.ConvState}
    {sp : List Char} {st2 : Assistant.ConvState}
    (h : Assistant.check_chat_status r st = Except.ok (sp, st2)) :
    st2 = { st with caller_id := none, chat_history := [] } ∨ st2 = st := by
  rw [Assistant.check_chat_status] at h
  cases hl : (pySplit r).getLast? with
  | none => rw [hl] at h; cases h
  | some tok =>
    rw [hl] at h
    dsimp only at h
    by_cases ht : tok = "True".toList
    · rw [if_pos ht] at h
      cases hr : pyRsplit1 r with
      | nil => rw [hr] at h; cases h
      | cons a l =>
        rw [hr] at h
        simp only [Except.ok.injEq, Prod.mk.injEq] at h
        exact Or.inl h.2.symm
    · rw [if_neg ht] at h
      simp only [Except.ok.injEq, Prod.mk.injEq] at h
      exact Or.inr h.2.symm

theorem get_context_head (st : Assistant.ConvState) (m : List Char)
    (h : st.chat_history ≠ [] → st.chat_history.head? =
      some ⟨Assistant.Role.system, st.system_prompt⟩) :
    (Assistant.get_context st m).chat_history ≠ [] ∧
    (Assistant.get_context st m).chat_history.head? =
      some ⟨Assistant.Role.system, st.system_prompt⟩ ∧
    (Assistant.get_context st m).system_prompt = st.system_prompt := by
  rw [Assistant.get_context]
  by_cases he : st.chat_history.isEmpty
  · simp [he]
  · have hne : st.chat_history ≠ [] := by
      intro hn
      exact he (by rw [hn]; rfl)
    have he2 : st.chat_history.isEmpty = false := by
      cases h2 : st.chat_history.isEmpty
      · rfl
      · exact absurd h2 he
    refine ⟨by simp [he2, hne], ?_, by simp [he2]⟩
    simp only [he2, Bool.false_eq_true, if_false]
    rw [List.head?_append, h hne]
    rfl

theorem message_iteration_inv (st : Assistant.ConvState)
    (message response : List Char)
    (h : st.chat_history ≠ [] → st.chat_history.head? =
      some ⟨Assistant.Role.system, st.system_prompt⟩) :
    ((Assistant.message_iteration st message response).chat_history ≠ [] →
      (Assistant.message_iteration st message response).chat_history.head? =
        some ⟨Assistant.Role.system,
          (Assistant.message_iteration st message response).system_prompt⟩) ∧
    (Assistant.message_iteration st message response).system_prompt =
      st.system_prompt := by
  obtain ⟨hne1, hhead1, hsp1⟩ := get_context_head st message h
  rw [Assistant.message_iteration]
  by_cases hm : message.isEmpty
  · simp only [hm, if_true]
    exact ⟨h, trivial⟩
  · have hm2 : message.isEmpty = false := by
      cases h2 : message.isEmpty
      · rfl
      · exact absurd h2 hm
    simp only [hm2, Bool.false_eq_true, if_false]
    cases hc : Assistant.check_chat_status response
        { Assistant.get_context st message with
          chat_history := (Assistant.get_context st message).chat_history ++
            [⟨Assistant.Role.assistant, response⟩] } with
    | error e =>
      simp only [hc]
      constructor
      · intro _
        show ((Assistant.get_context st message).chat_history ++
            ([⟨Assistant.Role.assistant, response⟩] : List Assistant.Message)).head? =
          some (⟨Assistant.Role.system,
            (Assistant.get_context st message).system_prompt⟩ : Assistant.Message)
        rw [List.head?_append, hhead1, hsp1]
        rfl
      · exact hsp1
    | ok p =>
      obtain ⟨sp2, st3⟩ := p
      simp only [hc]
      rcases check_chat_status_state hc with h2 | h2
      · subst h2
        constructor
        · intro hcon
          exact absurd rfl hcon
        · exact hsp1
      · subst h2
        constructor
        · intro _
          show ((Assistant.get_context st message).chat_history ++
              ([⟨Assistant.Role.assistant, response⟩] : List Assistant.Message)).head? =
            some (⟨Assistant.Role.system,
              (Assistant.get_context st message).system_prompt⟩ : Assistant.Message)
          rw [List.head?_append, hhead1, hsp1]
          rfl
        · exact hsp1

theorem run_loop_inv (calls : List (List Char × List Char)) :
    ∀ st : Assistant.ConvState,
      (st.chat_history ≠ [] → st.chat_history.head? =
        some ⟨Assistant.Role.system, st.system_prompt⟩) →
      ((calls.foldl (fun st c => Assistant.message_iteration st c.1 c.2) st).chat_history ≠ [] →
        (calls.foldl (fun st c => Assistant.message_iteration st c.1 c.2) st).chat_history.head? =
          some ⟨Assistant.Role.system,
            (calls.foldl (fun st c => Assistant.message_iteration st c.1 c.2) st).system_prompt⟩) ∧
      (calls.foldl (fun st c => Assistant.message_iteration st c.1 c.2) st).system_prompt =
        st.system_prompt := by
  induction calls with
  | nil => intro st h; exact ⟨h, rfl⟩
  | cons c calls ih =>
    intro st h
    have hstep := message_iteration_inv st c.1 c.2 h
    have hrec := ih (Assistant.message_iteration st c.1 c.2) hstep.1
    rw [List.foldl_cons]
    exact ⟨hrec.1, hrec.2.trans hstep.2⟩

/-- C10: in every state the response loop can reach, a non-empty chat history
starts with the system-prompt message with role system.  The invariant is
preserved by each history mutation the loop performs: adding a user message
(which seeds the history with the system prompt when empty), appending the
assistant response, and the end-of-turn clearing. -/
theorem C10_history_head_invariant (sp : List Char)
    (calls : List (List Char × List Char))
    (h : (Assistant.run_loop sp calls).chat_history ≠ []) :
    (Assistant.run_loop sp calls).chat_history.head? =
      some ⟨Assistant.Role.system, sp⟩ := by
  have hinv := run_loop_inv calls (Assistant.init_conv_state sp)
    (by intro hc; exact absurd rfl hc)
  rw [Assistant.run_loop] at h ⊢
  have h2 := hinv.1 h
  rwa [hinv.2] at h2

theorem C10_witness :
    (Assistant.run_loop "p".toList
        [("czesc".toList, "Siema".toList),
         ("dzieki".toList, "Milo".toList)]).chat_history.head? =
      some ⟨Assistant.Role.system, "p".toList⟩ :=
  C10_history_head_invariant "p".toList
    [("czesc".toList, "Siema".toList), ("dzieki".toList, "Milo".toList)]
    (by decide)

/-- C2 (amended): when the response's last whitespace-delimited token is the
sentinel "True", the check clears the history, resets the caller to none, and
returns as spoken text the response with the trailing token stripped —
except that a response consisting of the single token "True" is returned as
"True" itself, so the bare sentinel is spoken verbatim.  When the last token
is not the sentinel, response, history and caller are left unchanged. -/
theorem C2_sentinel_amended (response : List Char) (st : Assistant.ConvState)
    (h : pySplit response ≠ []) :
    ((pySplit response).getLast? = some "True".toList →
      ∃ spoken, Assistant.check_chat_status response st =
          Except.ok (spoken, { st with caller_id := none, chat_history := [] }) ∧
        (2 ≤ (pySplit response).length →
          pySplit spoken = (pySplit response).dropLast) ∧
        ((pySplit response).length = 1 → spoken = "True".toList)) ∧
    ((pySplit response).getLast? ≠ some "True".toList →
      Assistant.check_chat_status response st = Except.ok (response, st)) :=
  check_chat_status_cases response st h

/-- C2 counterexample: for the response "True" the last token is the sentinel
and the check clears history and caller, but the spoken text it returns is
"True" itself — the trailing token is not stripped (its token list does not
lose its last element), so the sentinel is spoken verbatim. -/
theorem C2_counterexample :
    (pySplit "True".toList).getLast? = some "True".toList ∧
    Assistant.check_chat_status "True".toList sample_state =
      Except.ok ("True".toList,
        { sample_state with caller_id := none, chat_history := [] }) ∧
    pySplit "True".toList ≠ (pySplit "True".toList).dropLast := by
  decide

theorem C2_witness :
    ∃ spoken,
      Assistant.check_chat_status "Goodbye True".toList sample_state =
        Except.ok (spoken,
          { sample_state with caller_id := none, chat_history := [] }) ∧
      (2 ≤ (pySplit "Goodbye True".toList).length →
        pySplit spoken = (pySplit "Goodbye True".toList).dropLast) ∧
      ((pySplit "Goodbye True".toList).length = 1 → spoken = "True".toList) :=
  (C2_sentinel_amended "Goodbye True".toList sample_state (by decide)).1 (by decide)

/-- C9: the end-of-turn check is total only when the response has at least one
whitespace-delimited token.  On an empty or whitespace-only response,
`response.split()[-1]` raises an out-of-range indexing error (the error
result); on a response with at least one token the check returns normally.
The check is invoked unconditionally on every generated model response, so
the error is reachable at the public interface whenever the language model
returns an empty response. -/
theorem C9_empty_response_error (response : List Char)
    (st : Assistant.ConvState) :
    ((∀ c ∈ response, pySpace c = true) →
      Assistant.check_chat_status response st = Except.error ()) ∧
    (pySplit response ≠ [] →
      ∃ spoken st2,
        Assistant.check_chat_status response st = Except.ok (spoken, st2)) := by
  constructor
  · intro hall
    have hnil : pySplit response = [] := pySplit_allspace hall
    rw [Assistant.check_chat_status, hnil]
    rfl
  · intro h
    have hcases := check_chat_status_cases response st h
    by_cases hlast : (pySplit response).getLast? = some "True".toList
    · obtain ⟨spoken, heq, _, _⟩ := hcases.1 hlast
      exact ⟨spoken, _, heq⟩
    · exact ⟨response, st, hcases.2 hlast⟩

theorem C9_witness :
    Assistant.check_chat_status "  ".toList sample_state = Except.error () ∧
    ∃ spoken st2, Assistant.check_chat_status "Czesc".toList sample_state =
      Except.ok (spoken, st2) :=
  ⟨(C9_empty_response_error "  ".toList sample_state).1 (by decide),
   (C9_empty_response_error "Czesc".toList sample_state).2 (by decide)⟩

/-- C3: the turn gate.  While a caller s is locked, a transcript from any
other speaker leaves the whole state (including the history) unchanged.
While no caller is locked, one case-insensitive substring occurrence of any
activation word locks the transcript's speaker and records the trancript as
the pending first turn message, leaving the history unchanged; a transcript
with no activation word leaves the state unchanged. -/
theorem C3_turn_gate (st : Assistant.ConvState) (speaker : Nat)
    (message : List Char) :
    (∀ s, st.caller_id = some s → speaker ≠ s →
      Assistant.handle_caller_id st speaker message = st) ∧
    (st.caller_id = none →
      (∃ w ∈ st.activate_words,
        pyContainsSub (pyLower w) (pyLower message) = true) →
      (Assistant.handle_caller_id st speaker message).caller_id = some speaker ∧
      (Assistant.handle_caller_id st speaker message).message_call =
        some (speaker, message) ∧
      (Assistant.handle_caller_id st speaker message).chat_history =
        st.chat_history) ∧
    (st.caller_id = none →
      (∀ w ∈ st.activate_words,
        pyContainsSub (pyLower w) (pyLower message) = false) →
      Assistant.handle_caller_id st speaker message = st) := by
  refine ⟨?_, ?_, ?_⟩
  · intro s hs hne
    rw [Assistant.handle_caller_id, hs]
    have : ¬ s = speaker := fun he => hne he.symm
    simp only [this, if_false]
  · intro hcal hw
    have hany : st.activate_words.any
        (fun w => pyContainsSub (pyLower w) (pyLower message)) = true :=
      List.any_eq_true.mpr hw
    rw [Assistant.handle_caller_id, hcal]
    simp [hany]
  · intro hcal hw
    have hany : st.activate_words.any
        (fun w => pyContainsSub (pyLower w) (pyLower message)) = false :=
      List.any_eq_false.mpr (by intro x hx; rw [hw x hx]; exact Bool.false_ne_true)
    rw [Assistant.handle_caller_id, hcal]
    simp only [hany, Bool.false_eq_true, if_false]

theorem C3_witness :
    Assistant.handle_caller_id sample_state 7 "hej Alvin co tam".toList =
      sample_state ∧
    (Assistant.handle_caller_id (Assistant.init_conv_state "p".toList) 42
        "hey Alvin how are you".toList).caller_id = some 42 ∧
    (Assistant.handle_caller_id (Assistant.init_conv_state "p".toList) 42
        "hey Alvin how are you".toList).message_call =
      some (42, "hey Alvin how are you".toList) ∧
    Assistant.handle_caller_id (Assistant.init_conv_state "p".toList) 42
        "hello there".toList =
      Assistant.init_conv_state "p".toList := by
  refine ⟨?_, ?_, ?_, ?_⟩
  · exact (C3_turn_gate sample_state 7 "hej Alvin co tam".toList).1 42 rfl (by decide)
  · exact ((C3_turn_gate (Assistant.init_conv_state "p".toList) 42
      "hey Alvin how are you".toList).2.1 rfl
      ⟨"alvin".toList, by decide, by decide⟩).1
  · exact ((C3_turn_gate (Assistant.init_conv_state "p".toList) 42
      "hey Alvin how are you".toList).2.1 rfl
      ⟨"alvin".toList, by decide, by decide⟩).2.1
  · exact (C3_turn_gate (Assistant.init_conv_state "p".toList) 42
      "hello there".toList).2.2 rfl (by decide)

/-! ## Timeout-policy sink: supporting analysis -/

theorem take_set_succ {α : Type} :
    ∀ (l : List α) (p : Nat) (x : α), p < l.length →
      (l.set p x).take (p + 1) = l.take p ++ [x] := by
  intro l
  induction l with
  | nil => intro p x h; simp at h
  | cons a t ih =>
    intro p x h
    cases p with
    | zero => simp
    | succ p =>
      rw [List.set_cons_succ, List.take_succ_cons, List.take_succ_cons,
        ih p x (by simpa using h), List.cons_append]

theorem sink_run_append (fl : Nat) (es : List AudioSinks.SinkEvent)
    (e : AudioSinks.SinkEvent) :
    AudioSinks.sink_run fl (es ++ [e]) =
      AudioSinks.sink_step fl (AudioSinks.sink_run fl es) e := by
  rw [AudioSinks.sink_run, AudioSinks.sink_run, List.foldl_append]
  rfl

theorem sink_step_hardcap_le (fl : Nat) (st : AudioSinks.SinkState)
    (e : AudioSinks.SinkEvent) :
    st.hardcap_flushes ≤ (AudioSinks.sink_step fl st e).hardcap_flushes := by
  cases e with
  | packet sp d =>
    rw [AudioSinks.sink_step, AudioSinks.write]
    by_cases h1 : 2 * d.length ≤ 3840
    · rw [if_pos h1, AudioSinks.process_data]
      by_cases h2 : d.length = fl
      · rw [if_pos h2]
        by_cases h3 : (AudioSinks.bufOf fl st).buffer_pointer > 300 - 2
        · rw [if_pos h3]
          exact Nat.le_succ _
        · rw [if_neg h3]
      · rw [if_neg h2]
    · rw [if_neg h1]
  | timeout sp =>
    rw [AudioSinks.sink_step, AudioSinks.timeout_flush]
    by_cases h4 : 0 < (AudioSinks.bufOf fl st).buffer_pointer
    · rw [if_pos h4]
    · rw [if_neg h4]

theorem sink_step_wf (fl : Nat) (st : AudioSinks.SinkState)
    (e : AudioSinks.SinkEvent)
    (h : (AudioSinks.bufOf fl st).buffer.length = 800 ∧
      (AudioSinks.bufOf fl st).buffer_pointer ≤ 299) :
    (AudioSinks.bufOf fl (AudioSinks.sink_step fl st e)).buffer.length = 800 ∧
    (AudioSinks.bufOf fl (AudioSinks.sink_step fl st e)).buffer_pointer ≤ 299 := by
  obtain ⟨hlen, hptr⟩ := h
  cases e with
  | packet sp d =>
    rw [AudioSinks.sink_step, AudioSinks.write]
    by_cases h1 : 2 * d.length ≤ 3840
    · rw [if_pos h1, AudioSinks.process_data]
      by_cases h2 : d.length = fl
      · rw [if_pos h2]
        by_cases h3 : (AudioSinks.bufOf fl st).buffer_pointer > 300 - 2
        · rw [if_pos h3]
          constructor
          · show ((((AudioSinks.bufOf fl st).buffer.map
                (fun _ => List.replicate fl 0)).set 0 d)).length = 800
            rw [List.length_set, List.length_map, hlen]
          · show 0 + 1 ≤ 299
            omega
        · rw [if_neg h3]
          constructor
          · show (((AudioSinks.bufOf fl st).buffer.set
                (AudioSinks.bufOf fl st).buffer_pointer d)).length = 800
            rw [List.length_set, hlen]
          · show (AudioSinks.bufOf fl st).buffer_pointer + 1 ≤ 299
            omega
      · rw [if_neg h2]
        exact ⟨hlen, hptr⟩
    · rw [if_neg h1]
      exact ⟨hlen, hptr⟩
  | timeout sp =>
    rw [AudioSinks.sink_step, AudioSinks.timeout_flush]
    by_cases h4 : 0 < (AudioSinks.bufOf fl st).buffer_pointer
    · rw [if_pos h4]
      constructor
      · show ((AudioSinks.bufOf fl st).buffer.map
            (fun _ => List.replicate fl 0)).length = 800
        rw [List.length_map, hlen]
      · show 0 ≤ 299
        omega
    · rw [if_neg h4]
      exact ⟨hlen, hptr⟩

theorem sink_run_wf (fl : Nat) (es : List AudioSinks.SinkEvent) :
    (AudioSinks.bufOf fl (AudioSinks.sink_run fl es)).buffer.length = 800 ∧
    (AudioSinks.bufOf fl (AudioSinks.sink_run fl es)).buffer_pointer ≤ 299 := by
  induction es using List.reverseRecOn with
  | nil =>
    constructor
    · show (List.replicate 800 (List.replicate fl 0)).length = 800
      rw [List.length_replicate]
    · show (0 : Nat) ≤ 299
      omega
  | append_singleton es e ih =>
    rw [sink_run_append]
    exact sink_step_wf fl (AudioSinks.sink_run fl es) e ih

theorem bufOf_some (fl : Nat) (st : AudioSinks.SinkState)
    (cb : AudioSinks.AudioBuffer) :
    AudioSinks.bufOf fl { st with buffer := some cb } = cb := rfl

theorem accepted_append_one (fl : Nat) (es : List AudioSinks.SinkEvent)
    (e : AudioSinks.SinkEvent) :
    AudioSinks.accepted fl (es ++ [e]) =
      AudioSinks.accepted fl es ++ AudioSinks.accepted fl [e] := by
  rw [AudioSinks.accepted, AudioSinks.accepted, AudioSinks.accepted,
    List.filterMap_append]

/-- On an event sequence with no hard-cap flush, the flushed payloads followed
by the still-buffered frames are exactly the accepted frames. -/
theorem sink_run_no_hardcap_concat (fl : Nat) (es : List AudioSinks.SinkEvent)
    (h : (AudioSinks.sink_run fl es).hardcap_flushes = 0) :
    (((AudioSinks.sink_run fl es).flushed.map Prod.snd).flatten ++
      ((AudioSinks.bufOf fl (AudioSinks.sink_run fl es)).buffer.take
        (AudioSinks.bufOf fl (AudioSinks.sink_run fl es)).buffer_pointer).flatten)
      = (AudioSinks.accepted fl es).flatten := by
  induction es using List.reverseRecOn with
  | nil => rfl
  | append_singleton es e ih =>
    have hmono : (AudioSinks.sink_run fl es).hardcap_flushes = 0 := by
      have hle := sink_step_hardcap_le fl (AudioSinks.sink_run fl es) e
      rw [← sink_run_append] at hle
      omega
    have ih2 := ih hmono
    have hwf := sink_run_wf fl es
    rw [sink_run_append] at h ⊢
    rw [accepted_append_one]
    cases e with
    | packet sp d =>
      rw [AudioSinks.sink_step, AudioSinks.write] at h ⊢
      by_cases h1 : 2 * d.length ≤ 3840
      · rw [if_pos h1, AudioSinks.process_data] at h ⊢
        by_cases h2 : d.length = fl
        · rw [if_pos h2] at h ⊢
          by_cases h3 : (AudioSinks.bufOf fl
              (AudioSinks.sink_run fl es)).buffer_pointer > 300 - 2
          · rw [if_pos h3] at h
            simp at h
          · rw [if_neg h3] at h ⊢
            have hacc : AudioSinks.accepted fl [AudioSinks.SinkEvent.packet sp d] = [d] := by
              rw [AudioSinks.accepted]
              simp [List.filterMap, h2, h2 ▸ h1]
            rw [hacc, bufOf_some]
            show ((AudioSinks.sink_run fl es).flushed.map Prod.snd).flatten ++
                (((AudioSinks.bufOf fl (AudioSinks.sink_run fl es)).buffer.set
                  (AudioSinks.bufOf fl (AudioSinks.sink_run fl es)).buffer_pointer d).take
                  ((AudioSinks.bufOf fl (AudioSinks.sink_run fl es)).buffer_pointer + 1)).flatten =
              (AudioSinks.accepted fl es ++ [d]).flatten
            rw [take_set_succ _ _ _ (by omega)]
            rw [List.flatten_append, List.flatten_append, ← ih2]
            simp [List.append_assoc]
        · rw [if_neg h2] at h ⊢
          have hacc : AudioSinks.accepted fl [AudioSinks.SinkEvent.packet sp d] = [] := by
            rw [AudioSinks.accepted]
            simp [List.filterMap, h1, h2]
          rw [hacc, List.append_nil]
          exact ih2
      · rw [if_neg h1] at h ⊢
        have hacc : AudioSinks.accepted fl [AudioSinks.SinkEvent.packet sp d] = [] := by
          rw [AudioSinks.accepted]
          simp [List.filterMap, h1]
        rw [hacc, List.append_nil]
        exact ih2
    | timeout sp =>
      rw [AudioSinks.sink_step, AudioSinks.timeout_flush] at h ⊢
      have hacc : AudioSinks.accepted fl [AudioSinks.SinkEvent.timeout sp] = [] := by
        rw [AudioSinks.accepted]
        simp [List.filterMap]
      rw [hacc, List.append_nil]
      by_cases h4 : 0 < (AudioSinks.bufOf fl (AudioSinks.sink_run fl es)).buffer_pointer
      · rw [if_pos h4]
        show ((((AudioSinks.sink_run fl es).flushed ++
            [(sp, ((AudioSinks.bufOf fl (AudioSinks.sink_run fl es)).buffer.take
              (AudioSinks.bufOf fl (AudioSinks.sink_run fl es)).buffer_pointer).flatten)]).map
              Prod.snd).flatten ++
            (((AudioSinks.bufOf fl (AudioSinks.sink_run fl es)).buffer.map
              (fun _ => List.replicate fl 0)).take 0).flatten) =
          (AudioSinks.accepted fl es).flatten
        rw [List.take_zero, List.map_append, List.flatten_append, ← ih2]
        simp [List.append_assoc]
      · rw [if_neg h4]
        exact ih2

/-- A burst of n one-frame packets (one sample per frame) for speaker 0. -/
def hard_cap_events (n : Nat) : List AudioSinks.SinkEvent :=
  List.replicate n (AudioSinks.SinkEvent.packet 0 [1])

/-- C1 (amended): over any event sequence during which the hard-cap flush
never fires, the concatenation of flushed payloads after a final drain flush
equals the concatenation of the accepted frames — no frame duplicated,
dropped, or padded.  (When a hard-cap flush fires, the whole 800-frame
allocation is emitted, appending zero padding; see the counterexample.) -/
theorem C1_flush_concat_amended (fl : Nat) (es : List AudioSinks.SinkEvent)
    (h : (AudioSinks.sink_run fl es).hardcap_flushes = 0) :
    ((AudioSinks.sink_run fl
        (es ++ [AudioSinks.SinkEvent.timeout 0])).flushed.map Prod.snd).flatten
      = (AudioSinks.accepted fl es).flatten := by
  have hconc := sink_run_no_hardcap_concat fl es h
  rw [sink_run_append, AudioSinks.sink_step, AudioSinks.timeout_flush]
  by_cases h4 : 0 < (AudioSinks.bufOf fl (AudioSinks.sink_run fl es)).buffer_pointer
  · rw [if_pos h4]
    show ((((AudioSinks.sink_run fl es).flushed ++
        [(0, ((AudioSinks.bufOf fl (AudioSinks.sink_run fl es)).buffer.take
          (AudioSinks.bufOf fl (AudioSinks.sink_run fl es)).buffer_pointer).flatten)]).map
          Prod.snd).flatten) = (AudioSinks.accepted fl es).flatten
    rw [List.map_append, List.flatten_append, ← hconc]
    simp
  · rw [if_neg h4]
    have hz : (AudioSinks.bufOf fl (AudioSinks.sink_run fl es)).buffer_pointer = 0 := by
      omega
    rw [hz, List.take_zero] at hconc
    show ((AudioSinks.sink_run fl es).flushed.map Prod.snd).flatten =
      (AudioSinks.accepted fl es).flatten
    rw [← hconc]
    simp

theorem C1_witness :
    ((AudioSinks.sink_run 1
        ([AudioSinks.SinkEvent.packet 0 [5], AudioSinks.SinkEvent.packet 0 [7],
          AudioSinks.SinkEvent.timeout 0, AudioSinks.SinkEvent.packet 0 [9]] ++
          [AudioSinks.SinkEvent.timeout 0])).flushed.map Prod.snd).flatten
      = (AudioSinks.accepted 1
          [AudioSinks.SinkEvent.packet 0 [5], AudioSinks.SinkEvent.packet 0 [7],
           AudioSinks.SinkEvent.timeout 0, AudioSinks.SinkEvent.packet 0 [9]]).flatten :=
  C1_flush_concat_amended 1
    [AudioSinks.SinkEvent.packet 0 [5], AudioSinks.SinkEvent.packet 0 [7],
     AudioSinks.SinkEvent.timeout 0, AudioSinks.SinkEvent.packet 0 [9]]
    (by decide)

/-- C5 (amended): in every reachable sink state the write cursor is at most
299 (= capacity - margin: it can reach exactly 299, but never exceed it), the
allocated 800-frame array keeps its length, and a timeout flush on an empty
buffer emits nothing. -/
theorem C5_invariant_amended (fl : Nat) (es : List AudioSinks.SinkEvent) :
    (AudioSinks.bufOf fl (AudioSinks.sink_run fl es)).buffer_pointer ≤ 299 ∧
    (AudioSinks.bufOf fl (AudioSinks.sink_run fl es)).buffer.length = 800 ∧
    (∀ sp, (AudioSinks.bufOf fl (AudioSinks.sink_run fl es)).buffer_pointer = 0 →
      (AudioSinks.sink_run fl (es ++ [AudioSinks.SinkEvent.timeout sp])).flushed =
        (AudioSinks.sink_run fl es).flushed) := by
  have hwf := sink_run_wf fl es
  refine ⟨hwf.2, hwf.1, ?_⟩
  intro sp hz
  rw [sink_run_append, AudioSinks.sink_step, AudioSinks.timeout_flush, hz]
  rfl

theorem C5_witness :
    (AudioSinks.bufOf 1 (AudioSinks.sink_run 1 (hard_cap_events 3))).buffer_pointer ≤ 299 ∧
    (AudioSinks.bufOf 1 (AudioSinks.sink_run 1 (hard_cap_events 3))).buffer.length = 800 ∧
    (AudioSinks.sink_run 1 ((hard_cap_events 3 ++ [AudioSinks.SinkEvent.timeout 4]) ++
        [AudioSinks.SinkEvent.timeout 5])).flushed =
      (AudioSinks.sink_run 1 (hard_cap_events 3 ++ [AudioSinks.SinkEvent.timeout 4])).flushed :=
  ⟨(C5_invariant_amended 1 (hard_cap_events 3)).1,
   (C5_invariant_amended 1 (hard_cap_events 3)).2.1,
   (C5_invariant_amended 1 (hard_cap_events 3 ++ [AudioSinks.SinkEvent.timeout 4])).2.2 5
     (by decide)⟩

theorem set_append_len {α : Type} :
    ∀ (l1 l2 : List α) (x : α), (l1 ++ l2).set l1.length x = l1 ++ l2.set 0 x := by
  intro l1
  induction l1 with
  | nil => intro l2 x; rfl
  | cons a t ih =>
    intro l2 x
    rw [List.cons_append, List.length_cons, List.set_cons_succ, ih, List.cons_append]

theorem map_const_replicate {α β : Type} (c : β) :
    ∀ l : List α, l.map (fun _ => c) = List.replicate l.length c := by
  intro l
  induction l with
  | nil => rfl
  | cons a t ih => rw [List.map_cons, List.length_cons, List.replicate_succ, ih]

theorem flatten_replicate_singleton {α : Type} (a : α) :
    ∀ n, (List.replicate n [a]).flatten = List.replicate n a := by
  intro n
  induction n with
  | zero => rfl
  | succ n ih =>
    rw [List.replicate_succ, List.flatten_cons, ih, List.replicate_succ,
      List.singleton_append]

theorem accepted_hard_cap :
    ∀ n, AudioSinks.accepted 1 (hard_cap_events n) = List.replicate n ([1] : List Int) := by
  intro n
  induction n with
  | zero => rfl
  | succ n ih =>
    rw [hard_cap_events, List.replicate_succ, AudioSinks.accepted, List.filterMap_cons]
    rw [AudioSinks.accepted] at ih
    rw [hard_cap_events] at ih
    show ([1] : List Int) :: List.filterMap _ (List.replicate n _) = _
    rw [ih, List.replicate_succ]

theorem set_replicate_chain (n m : Nat) :
    ((List.replicate n ([1] : List Int) ++ List.replicate (m + 1) ([0] : List Int)).set n [1]) =
      List.replicate (n + 1) ([1] : List Int) ++ List.replicate m ([0] : List Int) := by
  rw [List.replicate_succ]
  calc (List.replicate n ([1] : List Int) ++
        (([0] : List Int) :: List.replicate m [0])).set n [1]
      = List.replicate n ([1] : List Int) ++
          ((([0] : List Int) :: List.replicate m [0]).set 0 [1]) := by
        have h := set_append_len (List.replicate n ([1] : List Int))
          (([0] : List Int) :: List.replicate m [0]) ([1] : List Int)
        rw [List.length_replicate] at h
        exact h
    _ = List.replicate n ([1] : List Int) ++ (([1] : List Int) :: List.replicate m [0]) := by
        rw [List.set_cons_zero]
    _ = List.replicate (n + 1) ([1] : List Int) ++ List.replicate m ([0] : List Int) := by
        rw [List.replicate_succ', List.append_assoc, List.singleton_append]

/-- The observable sink state after n accepted one-sample frames, while below
the hard cap: pointer n, first n frames filled, nothing flushed. -/
theorem run_ones : ∀ n : Nat, n ≤ 299 →
    AudioSinks.bufOf 1 (AudioSinks.sink_run 1 (hard_cap_events n)) =
      ⟨List.replicate n [1] ++ List.replicate (800 - n) [0], n⟩ ∧
    (AudioSinks.sink_run 1 (hard_cap_events n)).flushed = [] ∧
    (AudioSinks.sink_run 1 (hard_cap_events n)).hardcap_flushes = 0 := by
  intro n
  induction n with
  | zero =>
    intro _
    refine ⟨?_, rfl, rfl⟩
    show AudioSinks.init_buffer 1 = _
    rw [AudioSinks.init_buffer]
    rfl
  | succ n ih =>
    intro hle
    obtain ⟨hbuf, hfl, hhc⟩ := ih (by omega)
    have hev : hard_cap_events (n + 1) =
        hard_cap_events n ++ [AudioSinks.SinkEvent.packet 0 [1]] := by
      rw [hard_cap_events, hard_cap_events, List.replicate_succ']
    rw [hev, sink_run_append, AudioSinks.sink_step, AudioSinks.write,
      if_pos (by decide : 2 * ([1] : List Int).length ≤ 3840),
      AudioSinks.process_data, if_pos (by decide : ([1] : List Int).length = 1)]
    rw [hbuf]
    rw [if_neg (by show ¬ n > 300 - 2; omega)]
    refine ⟨?_, hfl, hhc⟩
    rw [bufOf_some, AudioSinks.fill_buffer]
    show AudioSinks.AudioBuffer.mk
      ((List.replicate n ([1] : List Int) ++
        List.replicate (800 - n) ([0] : List Int)).set n [1]) (n + 1) = _
    rw [show 800 - n = (799 - n) + 1 from by omega, set_replicate_chain,
      show 799 - n = 800 - (n + 1) from by omega]


/-- The observable sink state after 300 accepted one-sample frames: the
hard-cap flush fired during the 300th packet, emitting the whole 800-frame
allocation (299 data frames plus 501 zero frames), and the 300th frame sits
alone in the cleared buffer. -/
theorem run_300 :
    AudioSinks.bufOf 1 (AudioSinks.sink_run 1 (hard_cap_events 300)) =
      ⟨List.replicate 1 [1] ++ List.replicate 799 [0], 1⟩ ∧
    (AudioSinks.sink_run 1 (hard_cap_events 300)).flushed =
      [(0, List.replicate 299 (1 : Int) ++ List.replicate 501 0)] ∧
    (AudioSinks.sink_run 1 (hard_cap_events 300)).hardcap_flushes = 1 := by
  obtain ⟨hbuf, hfl, hhc⟩ := run_ones 299 (by omega)
  have hev : hard_cap_events 300 =
      hard_cap_events 299 ++ [AudioSinks.SinkEvent.packet 0 [1]] := by
    rw [hard_cap_events, hard_cap_events, show (300 : Nat) = 299 + 1 from rfl,
      List.replicate_succ']
  rw [hev, sink_run_append, AudioSinks.sink_step, AudioSinks.write,
    if_pos (by decide : 2 * ([1] : List Int).length ≤ 3840),
    AudioSinks.process_data, if_pos (by decide : ([1] : List Int).length = 1)]
  rw [hbuf]
  rw [if_pos (by show (299 : Nat) > 300 - 2; omega)]
  refine ⟨?_, ?_, ?_⟩
  · dsimp only [AudioSinks.bufOf, Option.getD, AudioSinks.fill_buffer,
      AudioSinks.clear_buffer]
    rw [map_const_replicate, List.length_append, List.length_replicate,
      List.length_replicate]
    rw [show List.replicate 1 (0 : Int) = [0] from rfl]
    rw [show (299 + (800 - 299) : Nat) = 799 + 1 from rfl, List.replicate_succ,
      List.set_cons_zero]
    rw [show List.replicate 1 ([1] : List Int) ++ List.replicate 799 [0] =
      ([1] : List Int) :: List.replicate 799 [0] from rfl]
  · dsimp only
    rw [hfl, List.nil_append, List.flatten_append, flatten_replicate_singleton,
      flatten_replicate_singleton]
  · dsimp only
    rw [hhc]

/-- The observable sink state after 301 accepted one-sample frames: still the
single hard-cap flush, and the buffer now holds 2 frames. -/
theorem run_301 :
    (AudioSinks.bufOf 1 (AudioSinks.sink_run 1 (hard_cap_events 301))).buffer_pointer = 2 ∧
    (AudioSinks.sink_run 1 (hard_cap_events 301)).flushed =
      [(0, List.replicate 299 (1 : Int) ++ List.replicate 501 0)] ∧
    (AudioSinks.sink_run 1 (hard_cap_events 301)).hardcap_flushes = 1 := by
  obtain ⟨hbuf, hfl, hhc⟩ := run_300
  have hev : hard_cap_events 301 =
      hard_cap_events 300 ++ [AudioSinks.SinkEvent.packet 0 [1]] := by
    rw [hard_cap_events, hard_cap_events, show (301 : Nat) = 300 + 1 from rfl,
      List.replicate_succ']
  rw [hev, sink_run_append, AudioSinks.sink_step, AudioSinks.write,
    if_pos (by decide : 2 * ([1] : List Int).length ≤ 3840),
    AudioSinks.process_data, if_pos (by decide : ([1] : List Int).length = 1)]
  rw [hbuf]
  rw [if_neg (by show ¬ (1 : Nat) > 300 - 2; omega)]
  refine ⟨?_, ?_, ?_⟩
  · dsimp only [AudioSinks.bufOf, Option.getD, AudioSinks.fill_buffer]
  · dsimp only
    exact hfl
  · dsimp only
    exact hhc

theorem run_300_drain_flushed :
    (AudioSinks.sink_run 1
        (hard_cap_events 300 ++ [AudioSinks.SinkEvent.timeout 0])).flushed =
      [(0, List.replicate 299 (1 : Int) ++ List.replicate 501 0), (0, [1])] := by
  obtain ⟨hbuf, hfl, _⟩ := run_300
  rw [sink_run_append, AudioSinks.sink_step, AudioSinks.timeout_flush, hbuf,
    if_pos (by show (0 : Nat) < 1; decide)]
  dsimp only
  rw [hfl]
  have h9 : ((List.replicate 1 ([1] : List Int) ++
      List.replicate 799 [0]).take 1).flatten = [1] := rfl
  rw [h9, List.singleton_append]

/-- C1 counterexample: 300 accepted one-sample frames followed by a drain
timeout.  The hard-cap flush fired during the 300th packet emits the whole
800-frame allocation — the 299 buffered frames plus 501 zero frames — so the
concatenation of the flushed payloads (801 samples) differs from the
concatenation of the accepted frames (300 samples): extra zero bytes are
emitted. -/
theorem C1_counterexample :
    ((AudioSinks.sink_run 1
        (hard_cap_events 300 ++ [AudioSinks.SinkEvent.timeout 0])).flushed.map
        Prod.snd).flatten ≠
      (AudioSinks.accepted 1
        (hard_cap_events 300 ++ [AudioSinks.SinkEvent.timeout 0])).flatten := by
  intro heq
  have hlen := congrArg List.length heq
  rw [run_300_drain_flushed, accepted_append_one, accepted_hard_cap] at hlen
  rw [show AudioSinks.accepted 1 [AudioSinks.SinkEvent.timeout 0] = [] from rfl,
    List.append_nil, flatten_replicate_singleton] at hlen
  rw [show (([(0, List.replicate 299 (1 : Int) ++ List.replicate 501 0),
      (0, [1])]).map Prod.snd) =
    [List.replicate 299 (1 : Int) ++ List.replicate 501 0, [1]] from rfl] at hlen
  rw [List.flatten_cons, List.flatten_cons, List.flatten_nil, List.append_nil,
    List.length_append, List.length_append, List.length_replicate,
    List.length_replicate, List.length_replicate] at hlen
  omega

/-- C4 (amended): for 301 one-frame packets at the 300-frame timeout-policy
sink, no flush happens during the first 299 packets, exactly one hard-cap
flush occurs over the whole sequence — it fires while processing the 300th
packet, before the 300th frame (hence also before the 301st) is written —
and after the 301st frame is written the write cursor holds 2 frames. -/
theorem C4_hardcap_amended :
    (AudioSinks.sink_run 1 (hard_cap_events 299)).hardcap_flushes = 0 ∧
    (AudioSinks.sink_run 1 (hard_cap_events 300)).hardcap_flushes = 1 ∧
    (AudioSinks.sink_run 1 (hard_cap_events 301)).hardcap_flushes = 1 ∧
    (AudioSinks.sink_run 1 (hard_cap_events 301)).flushed.length = 1 ∧
    (AudioSinks.bufOf 1 (AudioSinks.sink_run 1 (hard_cap_events 301))).buffer_pointer = 2 := by
  refine ⟨(run_ones 299 (by omega)).2.2, run_300.2.2, run_301.2.2, ?_, run_301.1⟩
  rw [run_301.2.1]
  rfl

/-- C4 counterexample: after the 301st one-frame packet the write cursor
holds 2 frames, not 1 as the claim states (the hard-cap flush fires before
the 300th write, not between the 300th and 301st). -/
theorem C4_counterexample :
    (AudioSinks.bufOf 1 (AudioSinks.sink_run 1 (hard_cap_events 301))).buffer_pointer ≠ 1 := by
  have h := run_301.1
  omega

/-- C5 counterexample: after 299 accepted frames the write cursor equals
299 = capacity - margin (flush threshold), so the cursor is not strictly
below capacity minus margin after every write. -/
theorem C5_counterexample :
    ¬ (AudioSinks.bufOf 1 (AudioSinks.sink_run 1 (hard_cap_events 299))).buffer_pointer < 299 := by
  have h := (run_ones 299 (by omega)).1
  have h2 : (AudioSinks.bufOf 1
      (AudioSinks.sink_run 1 (hard_cap_events 299))).buffer_pointer = 299 := by
    rw [h]
  omega

/-! ## Energy-policy sink: supporting analysis -/

theorem alookup_aset_self {α : Type} :
    ∀ (bs : List (Nat × α)) (k : Nat) (v : α),
      AudioApi.alookup (AudioApi.aset bs k v) k = some v := by
  intro bs
  induction bs with
  | nil => intro k v; simp [AudioApi.aset, AudioApi.alookup]
  | cons p t ih =>
    intro k v
    obtain ⟨k1, v1⟩ := p
    rw [AudioApi.aset]
    by_cases h : k1 = k
    · rw [if_pos h, AudioApi.alookup, if_pos rfl]
    · rw [if_neg h, AudioApi.alookup, if_neg h]
      exact ih k v

theorem alookup_aset_ne {α : Type} :
    ∀ (bs : List (Nat × α)) (k : Nat) (v : α) (u : Nat), k ≠ u →
      AudioApi.alookup (AudioApi.aset bs k v) u = AudioApi.alookup bs u := by
  intro bs
  induction bs with
  | nil =>
    intro k v u h
    simp [AudioApi.aset, AudioApi.alookup, h]
  | cons p t ih =>
    intro k v u h
    obtain ⟨k1, v1⟩ := p
    rw [AudioApi.aset]
    by_cases h1 : k1 = k
    · rw [if_pos h1, AudioApi.alookup, AudioApi.alookup, if_neg h, h1, if_neg h]
    · rw [if_neg h1, AudioApi.alookup, AudioApi.alookup]
      by_cases h2 : k1 = u
      · rw [if_pos h2, if_pos h2]
      · rw [if_neg h2, if_neg h2]
        exact ih k v u h

theorem write_accept_fields (fl : Nat) (st : AudioApi.Sink) (user : Nat)
    (data : List Int) :
    AudioApi.bufOf fl (AudioApi.write_accept fl st user data) user =
      (AudioApi.process_voice fl (AudioApi.bufOf fl st user) data).1 ∧
    (AudioApi.write_accept fl st user data).flushed =
      st.flushed ++
        (match (AudioApi.process_voice fl (AudioApi.bufOf fl st user) data).2 with
          | none => []
          | some p => [(user, p)]) ∧
    (AudioApi.write_accept fl st user data).caller_id = st.caller_id := by
  refine ⟨?_, rfl, rfl⟩
  show (AudioApi.alookup (AudioApi.aset _ user
    (AudioApi.process_voice fl (AudioApi.bufOf fl st user) data).1) user).getD _ = _
  rw [alookup_aset_self, Option.getD_some]

theorem write_accept_bufOf_ne (fl : Nat) (st : AudioApi.Sink) (user : Nat)
    (data : List Int) (u : Nat) (h : u ≠ user) :
    AudioApi.bufOf fl (AudioApi.write_accept fl st user data) u =
      AudioApi.bufOf fl st u := by
  rw [AudioApi.write_accept, AudioApi.bufOf, AudioApi.bufOf]
  cases hlu : AudioApi.alookup st.buffers user with
  | some b =>
    simp only [hlu]
    rw [alookup_aset_ne _ _ _ _ (fun he => h he.symm)]
    rfl
  | none =>
    simp only [hlu]
    rw [alookup_aset_ne _ _ _ _ (fun he => h he.symm),
      alookup_aset_ne _ _ _ _ (fun he => h he.symm)]
    rfl

theorem write_gate_pass (fl : Nat) (st : AudioApi.Sink) (user : Nat)
    (data : List Int) (h : st.caller_id = none ∨ st.caller_id = some user) :
    AudioApi.write fl st user data = AudioApi.write_accept fl st user data := by
  rcases h with h | h
  · rw [AudioApi.write, h]
  · rw [AudioApi.write, h]
    dsimp only
    by_cases h0 : user ≠ 0
    · rw [if_pos h0, if_neg (by simp)]
    · rw [if_neg h0]

/-- C8 (amended): the energy flush policy of the audio_api sink, for frames
that pass the caller gate and decode, while the buffer is below the hard cap,
where the energy is `np.abs(frame).sum()` with the int16-wrapped per-sample
absolute value (so a frame containing the sample -32768 contributes -32768,
not 32768): a frame whose wrapped-magnitude sum exceeds the silence threshold
500 is appended at the cursor; a frame at or below the threshold with a
non-empty buffer triggers an immediate flush of the buffer and a cursor reset
to 0; a frame at or below the threshold with an empty buffer is dropped with
no state change and no flush. -/
theorem C8_energy_policy (fl : Nat) (st : AudioApi.Sink) (user : Nat)
    (data : List Int)
    (hgate : st.caller_id = none ∨ st.caller_id = some user)
    (hdec : fl ≤ data.length)
    (hcap : (AudioApi.bufOf fl st user).buffer_pointer ≤ 600 - 2) :
    (500 < ((data.take fl).map AudioApi.np_abs_int16).sum →
      AudioApi.bufOf fl (AudioApi.write fl st user data) user =
        ⟨(AudioApi.bufOf fl st user).buffer.set
          (AudioApi.bufOf fl st user).buffer_pointer (data.take fl),
          (AudioApi.bufOf fl st user).buffer_pointer + 1⟩ ∧
      (AudioApi.write fl st user data).flushed = st.flushed) ∧
    (((data.take fl).map AudioApi.np_abs_int16).sum ≤ 500 →
      0 < (AudioApi.bufOf fl st user).buffer_pointer →
      (AudioApi.write fl st user data).flushed =
        st.flushed ++ [(user, some (AudioApi.bufOf fl st user).buffer.flatten)] ∧
      (AudioApi.bufOf fl (AudioApi.write fl st user data) user).buffer_pointer = 0 ∧
      (AudioApi.bufOf fl (AudioApi.write fl st user data) user).buffer =
        (AudioApi.bufOf fl st user).buffer.map (fun _ => List.replicate fl 0)) ∧
    (((data.take fl).map AudioApi.np_abs_int16).sum ≤ 500 →
      (AudioApi.bufOf fl st user).buffer_pointer = 0 →
      AudioApi.bufOf fl (AudioApi.write fl st user data) user =
        AudioApi.bufOf fl st user ∧
      (AudioApi.write fl st user data).flushed = st.flushed ∧
      (AudioApi.write fl st user data).caller_id = st.caller_id) := by
  rw [write_gate_pass fl st user data hgate]
  obtain ⟨hb, hf, hc⟩ := write_accept_fields fl st user data
  refine ⟨?_, ?_, ?_⟩
  · intro hsum
    have hpv : AudioApi.process_voice fl (AudioApi.bufOf fl st user) data =
        (AudioApi.fill_buffer (AudioApi.bufOf fl st user) (data.take fl), none) := by
      rw [AudioApi.process_voice, if_neg (by omega), if_neg (by omega), if_pos hsum]
    constructor
    · rw [hb, hpv, AudioApi.fill_buffer]
    · rw [hf, hpv]
      show st.flushed ++ [] = st.flushed
      rw [List.append_nil]
  · intro hsum hne
    have hpv : AudioApi.process_voice fl (AudioApi.bufOf fl st user) data =
        (AudioApi.clear_buffer fl (AudioApi.bufOf fl st user),
          some (some (AudioApi.bufOf fl st user).buffer.flatten)) := by
      rw [AudioApi.process_voice, if_neg (by omega), if_neg (by omega),
        if_neg (by omega), if_pos hne]
    refine ⟨?_, ?_, ?_⟩
    · rw [hf, hpv]
    · rw [hb, hpv, AudioApi.clear_buffer]
    · rw [hb, hpv, AudioApi.clear_buffer]
  · intro hsum hzero
    have hpv : AudioApi.process_voice fl (AudioApi.bufOf fl st user) data =
        (AudioApi.bufOf fl st user, none) := by
      rw [AudioApi.process_voice, if_neg (by omega), if_neg (by omega),
        if_neg (by omega), if_neg (by omega)]
    refine ⟨?_, ?_, hc⟩
    · rw [hb, hpv]
    · rw [hf, hpv]
      show st.flushed ++ [] = st.flushed
      rw [List.append_nil]

theorem C8_witness :
    (AudioApi.bufOf 1 (AudioApi.write 1 AudioApi.init_sink 5 [600]) 5).buffer_pointer = 1 ∧
    (AudioApi.write 1 AudioApi.init_sink 5 [600]).flushed = [] ∧
    ((AudioApi.write 1 (AudioApi.write 1 AudioApi.init_sink 5 [600]) 5 [0]).flushed =
      (AudioApi.write 1 AudioApi.init_sink 5 [600]).flushed ++
        [(5, some (AudioApi.bufOf 1
          (AudioApi.write 1 AudioApi.init_sink 5 [600]) 5).buffer.flatten)]) ∧
    (AudioApi.bufOf 1
      (AudioApi.write 1 (AudioApi.write 1 AudioApi.init_sink 5 [600]) 5 [0])
        5).buffer_pointer = 0 := by
  have h1 := C8_energy_policy 1 AudioApi.init_sink 5 [600] (Or.inl rfl)
    (by decide) (by decide)
  have h2 := C8_energy_policy 1 (AudioApi.write 1 AudioApi.init_sink 5 [600]) 5 [0]
    (Or.inl (by decide)) (by decide) (by decide)
  obtain ⟨hb1, hf1⟩ := h1.1 (by decide)
  obtain ⟨hf2, hp2, _⟩ := h2.2.1 (by decide) (by decide)
  refine ⟨?_, hf1, hf2, hp2⟩
  rw [hb1]
  decide

/-- C8 counterexample: the frame consisting of the single int16 sample -32768
has a true sum of absolute sample magnitudes of 32768 > 500, so the claim
says it is appended; but `np.abs` wraps on int16 (`abs(-32768) = -32768`),
the computed energy is -32768 <= 500, and with an empty buffer the code drops
the frame: the cursor stays 0, the buffer is unchanged, and nothing is
flushed. -/
theorem C8_counterexample :
    500 < (([(-32768 : Int)].map Int.natAbs).sum) ∧
    (AudioApi.bufOf 1 (AudioApi.write 1 AudioApi.init_sink 5 [-32768])
      5).buffer_pointer = 0 ∧
    AudioApi.bufOf 1 (AudioApi.write 1 AudioApi.init_sink 5 [-32768]) 5 =
      AudioApi.bufOf 1 AudioApi.init_sink 5 ∧
    (AudioApi.write 1 AudioApi.init_sink 5 [-32768]).flushed = [] := by
  decide

/-- C7 (amended): a packet whose frame decoding fails is dropped and the
failure logged; the speaker's buffer contents and write cursor are unchanged.
In the timeout-policy sink (audio_sinks.py) the whole sink state is unchanged
and no flush occurs.  In the energy-policy sink (audio_api.py) no audio is
emitted and no buffer changes, but the flush callback is invoked once with a
null payload: `flush(speaker, None)`. -/
theorem C7_malformed_amended (fl : Nat)
    (stT : AudioSinks.SinkState) (sp : Nat) (dT : List Int)
    (stE : AudioApi.Sink) (user : Nat) (dE : List Int)
    (hT1 : 2 * dT.length ≤ 3840) (hT2 : dT.length ≠ fl)
    (hgate : stE.caller_id = none ∨ stE.caller_id = some user)
    (hE : dE.length < fl) :
    AudioSinks.write fl stT sp dT = stT ∧
    (∀ u, AudioApi.bufOf fl (AudioApi.write fl stE user dE) u =
      AudioApi.bufOf fl stE u) ∧
    (AudioApi.write fl stE user dE).flushed = stE.flushed ++ [(user, none)] ∧
    (AudioApi.write fl stE user dE).caller_id = stE.caller_id := by
  have hpv : AudioApi.process_voice fl (AudioApi.bufOf fl stE user) dE =
      (AudioApi.bufOf fl stE user, some none) := by
    rw [AudioApi.process_voice, if_pos hE]
  rw [write_gate_pass fl stE user dE hgate]
  obtain ⟨hb, hf, hc⟩ := write_accept_fields fl stE user dE
  refine ⟨?_, ?_, ?_, hc⟩
  · rw [AudioSinks.write, if_pos hT1, AudioSinks.process_data, if_neg hT2]
  · intro u
    by_cases hu : u = user
    · subst hu
      rw [hb, hpv]
    · exact write_accept_bufOf_ne fl stE user dE u hu
  · rw [hf, hpv]

/-- C7 counterexample: in the energy-policy sink, a malformed packet (here one
sample where a frame needs two) does invoke the flush callback — with a None
payload — so "no flush is emitted for that packet" is false there. -/
theorem C7_counterexample :
    (AudioApi.write 2 AudioApi.init_sink 5 [1]).flushed = [(5, none)] ∧
    (AudioApi.write 2 AudioApi.init_sink 5 [1]).flushed ≠ [] := by
  decide

theorem C7_witness :
    AudioSinks.write 2 ⟨none, [], 0⟩ 3 [1] = ⟨none, [], 0⟩ ∧
    AudioApi.bufOf 2 (AudioApi.write 2 AudioApi.init_sink 5 [1]) 5 =
      AudioApi.bufOf 2 AudioApi.init_sink 5 ∧
    (AudioApi.write 2 AudioApi.init_sink 5 [1]).flushed = [(5, none)] := by
  have h := C7_malformed_amended 2 ⟨none, [], 0⟩ 3 [1] AudioApi.init_sink 5 [1]
    (by decide) (by decide) (Or.inl rfl) (by decide)
  refine ⟨h.1, h.2.1 5, ?_⟩
  rw [h.2.2.1]
  rfl

/-! ## Segmented synthesis: supporting analysis -/

theorem process_loop_some {α : Type} (tts : List Char → α) :
    ∀ (cs : List (List Char)) (r : α),
      Assistant.process_loop tts (some r) cs = r :: cs.map tts := by
  intro cs
  induction cs with
  | nil => intro r; rfl
  | cons c cs ih =>
    intro r
    rw [Assistant.process_loop, ih, List.map_cons]

theorem process_loop_none {α : Type} (tts : List Char → α) :
    ∀ cs : List (List Char), Assistant.process_loop tts none cs = cs.map tts := by
  intro cs
  cases cs with
  | nil => rfl
  | cons c cs =>
    rw [Assistant.process_loop, process_loop_some, List.map_cons]

/-- C6 (amended): for every response, the graph pipeline
(`synthesize_audio`, agent.py) enqueues one playback unit per segment in
segment index order followed by the terminal marker; the queue pipeline
(`_process_response`, assistant.py) enqueues one unit per two-sentence chunk
in chunk index order but enqueues no terminal marker at all. -/
theorem C6_order_marker_amended {α : Type} (tts : List Char → α)
    (response : List Char) :
    Assistant.synthesize_audio tts response =
      (Assistant.segsOf response).map (fun s => some (tts s)) ++ [none] ∧
    Assistant.process_response tts response =
      (Assistant.chunk_pairs (Assistant.segsOf response)).map
        (fun s => some (tts s)) ∧
    Option.none ∉ Assistant.process_response tts response := by
  have h2 : Assistant.process_response tts response =
      (Assistant.chunk_pairs (Assistant.segsOf response)).map
        (fun s => some (tts s)) := by
    rw [Assistant.process_response]
    by_cases he : response.isEmpty
    · rw [if_pos he]
      have hemp : Assistant.segsOf response = [] := by
        rw [List.isEmpty_eq_true] at he
        subst he
        rfl
      rw [hemp]
      rfl
    · rw [if_neg he, process_loop_none, List.map_map]
      rfl
  refine ⟨?_, h2, ?_⟩
  · rw [Assistant.synthesize_audio]
    cases hs : Assistant.segsOf response with
    | nil => rfl
    | cons s0 rest => rw [List.map_cons]
  · rw [h2]
    simp

/-- C6 counterexample: for the response "One. Two. Three." the queue pipeline
(`_process_response`) enqueues the two chunk units and then stops — no
terminal marker is ever placed on the playback queue. -/
theorem C6_counterexample :
    Assistant.process_response List.length ("One. Two. Three.".toList) =
      [some 9, some 6] ∧
    Option.none ∉ Assistant.process_response List.length
      ("One. Two. Three.".toList) := by
  decide
